import Mathlib

/-!
# ETF Holdings Monitor — verification of the diff/report logic

Shallow embedding of `etf_monitor.py` (class `ETFHoldingsMonitor`): the
snapshot comparison (`compare_holdings` with its inner `extract_info`),
the previous-snapshot selection (`load_previous_holdings`) and the report
rendering (`generate_report`).  Holding rows are modelled as lists of
string fields; percentage weights are modelled as exact rationals.
-/

namespace ETFMonitor

/-- A holding row from the source table: a loosely shaped list of fields.
Index 0 is the ticker, index 1 the display name, index 2 the weight. -/
abbrev Row := List String

/-- The value stored per ticker by `extract_info`: the row's name and raw
weight field. -/
structure HoldingEntry where
  name : String
  weight : String
  deriving Repr, DecidableEq

/-- One saved snapshot, as read back from a `holdings_<date>.json` file:
its `date` field and its `holdings` rows. -/
structure SnapshotData where
  date : String
  holdings : List Row
  deriving Repr, DecidableEq

/-- An entry of the `weight_changes` list built by `compare_holdings`. -/
structure WeightChange where
  ticker : String
  name : String
  previous_weight : ℚ
  current_weight : ℚ
  change : ℚ
  deriving Repr, DecidableEq

/-- The result of `compare_holdings`: the `first_run` dictionary (status
`'first_run'`) or the full comparison dictionary (status `'success'`).
`new_holdings` and `removed_holdings` entries are `(ticker, name)` pairs. -/
inductive ComparisonResult where
  | first_run (total_holdings : ℕ)
  | success (date previous_date : String) (total_holdings : ℕ)
      (new_holdings removed_holdings : List (String × String))
      (weight_changes : List WeightChange)
      (significant_changes : ℕ)
  deriving Repr, DecidableEq

/-- Python dict assignment `info[ticker] = v`: replace the value in place
when the key is present, otherwise append the binding at the end. -/
def insertEntry (info : List (String × HoldingEntry)) (k : String)
    (v : HoldingEntry) : List (String × HoldingEntry) :=
  if info.any (fun p => p.1 == k) then
    info.map (fun p => if p.1 == k then (k, v) else p)
  else
    info ++ [(k, v)]

/-- The body of the `extract_info` loop for one row: rows with at least
3 fields (`if len(h) >= 3`) are written into the mapping with
`ticker = h[0]`, `name = h[1]`, `weight = h[2]`; shorter rows are
skipped. -/
def extractStep (info : List (String × HoldingEntry)) (h : Row) :
    List (String × HoldingEntry) :=
  match h with
  | ticker :: name :: weight :: _ => insertEntry info ticker ⟨name, weight⟩
  | _ => info

/-- `extract_info` from `compare_holdings`: fold the rows left to right
into a ticker-keyed mapping. -/
def extract_info (holdings : List Row) : List (String × HoldingEntry) :=
  holdings.foldl extractStep []

/-- Split a leading run of decimal digits off a character list. -/
def splitDigits : List Char → List Char × List Char
  | [] => ([], [])
  | c :: rest =>
    if c.isDigit then
      let (ds, r) := splitDigits rest
      (c :: ds, r)
    else
      ([], c :: rest)

/-- Value of a digit string, most significant first. -/
def digitsToNat (ds : List Char) : ℕ :=
  ds.foldl (fun acc c => acc * 10 + (c.toNat - 48)) 0

/-- The decimal-literal fragment of Python's `float()` built-in, read into
an exact rational: optional sign, integer digits, optional fractional
part, optional exponent; at least one digit is required.  `none` models a
`ValueError`. -/
def parseFloat (s : String) : Option ℚ :=
  let cs := s.data
  let (sgn, cs1) :=
    match cs with
    | '+' :: r => ((1 : ℚ), r)
    | '-' :: r => ((-1 : ℚ), r)
    | r => ((1 : ℚ), r)
  let (ip, cs2) := splitDigits cs1
  let (fp, cs3) :=
    match cs2 with
    | '.' :: r => splitDigits r
    | r => ([], r)
  if ip.isEmpty && fp.isEmpty then none
  else
    let mant : ℚ := (digitsToNat ip : ℚ) + (digitsToNat fp : ℚ) / (10 : ℚ) ^ fp.length
    match cs3 with
    | [] => some (sgn * mant)
    | 'e' :: r | 'E' :: r =>
      let (esgn, r1) :=
        match r with
        | '+' :: r2 => (true, r2)
        | '-' :: r2 => (false, r2)
        | r2 => (true, r2)
      let (ed, r2) := splitDigits r1
      if ed.isEmpty || !r2.isEmpty then none
      else if esgn then some (sgn * mant * (10 : ℚ) ^ digitsToNat ed)
      else some (sgn * mant / (10 : ℚ) ^ digitsToNat ed)
    | _ => none

/-- Python `str.strip()`: drop whitespace from both ends. -/
def pyStrip (cs : List Char) : List Char :=
  ((cs.dropWhile Char.isWhitespace).reverse.dropWhile Char.isWhitespace).reverse

/-- The weight-string normalisation in `compare_holdings`:
`str(...).replace('%', '').strip()` — every `'%'` character is removed
(the pattern is the single character `'%'`, so `replace` deletes each
occurrence), then surrounding whitespace is stripped. -/
def stripWeight (s : String) : String :=
  String.mk (pyStrip (s.data.filter (fun c => c ≠ '%')))

/-- Weight parsing in `compare_holdings`:
`float(w_str) if w_str else 0`, with a failed `float` (`ValueError`)
modelled as `none`. -/
def parseWeightField (s : String) : Option ℚ :=
  let t := stripWeight s
  if t = "" then some 0 else parseFloat t

/-- Look a ticker up in an `extract_info` mapping, defaulting like
Python's `info[ticker]` (which never fails on the keys iterated). -/
def getEntry (info : List (String × HoldingEntry)) (t : String) : HoldingEntry :=
  (List.lookup t info).getD ⟨"", ""⟩

/-- The tickers of a mapping, in mapping order (`info.keys()`). -/
def tickersOf (info : List (String × HoldingEntry)) : List String :=
  info.map Prod.fst

/-- `new_holdings` before name decoration: tickers of the current mapping
absent from the previous one (`current_tickers - previous_tickers`). -/
def new_tickers (cur prev : List Row) : List String :=
  (tickersOf (extract_info cur)).filter
    (fun t => !((tickersOf (extract_info prev)).contains t))

/-- `removed_holdings` before name decoration: tickers of the previous
mapping absent from the current one. -/
def removed_tickers (cur prev : List Row) : List String :=
  (tickersOf (extract_info prev)).filter
    (fun t => !((tickersOf (extract_info cur)).contains t))

/-- The tickers the weight loop visits:
`current_tickers.intersection(previous_tickers)` (one fixed encounter
order; the loop body is order-independent up to the final stable sort). -/
def common_tickers (cur prev : List Row) : List String :=
  (tickersOf (extract_info cur)).filter
    (fun t => (tickersOf (extract_info prev)).contains t)

/-- One iteration of the weight-change loop of `compare_holdings`:
normalise and parse both weight fields of a common ticker; a parse
failure is a `continue` (`none`); an entry is produced exactly when
`abs(curr_weight - prev_weight) > 0.01`, carrying the name from the
current mapping and `change = curr_weight - prev_weight`. -/
def weightChangeAt (cur prev : List Row) (t : String) : Option WeightChange :=
  match parseWeightField (getEntry (extract_info cur) t).weight,
      parseWeightField (getEntry (extract_info prev) t).weight with
  | some cw, some pw =>
    if 1 / 100 < |cw - pw| then
      some ⟨t, (getEntry (extract_info cur) t).name, pw, cw, cw - pw⟩
    else
      none
  | _, _ => none

/-- The weight-change loop of `compare_holdings`, before sorting. -/
def weight_changes_raw (cur prev : List Row) : List WeightChange :=
  (common_tickers cur prev).filterMap (weightChangeAt cur prev)

/-- The comparison order of
`sorted(weight_changes, key=lambda x: abs(x['change']), reverse=True)`:
descending absolute change, stable on ties. -/
def wcLE (a b : WeightChange) : Bool :=
  |b.change| ≤ |a.change|

/-- The final `weight_changes` list: the raw entries stably sorted by
descending `abs(change)`. -/
def weight_changes_of (cur prev : List Row) : List WeightChange :=
  (weight_changes_raw cur prev).mergeSort wcLE

/-- The `new_holdings` list of the success dictionary: each new ticker
with the display name from the current mapping. -/
def new_holdings_of (cur prev : List Row) : List (String × String) :=
  (new_tickers cur prev).map (fun t => (t, (getEntry (extract_info cur) t).name))

/-- The `removed_holdings` list of the success dictionary: each removed
ticker with the display name from the previous mapping. -/
def removed_holdings_of (cur prev : List Row) : List (String × String) :=
  (removed_tickers cur prev).map (fun t => (t, (getEntry (extract_info prev) t).name))

/-- `significant_changes`:
`len(new_holdings) + len(removed_holdings) + len(weight_changes)`. -/
def significant_changes_of (cur prev : List Row) : ℕ :=
  (new_tickers cur prev).length + (removed_tickers cur prev).length +
    (weight_changes_raw cur prev).length

/-- `compare_holdings(current_holdings, previous_data)`.  `today` stands
for `datetime.now().strftime("%Y-%m-%d")`, passed explicitly.  With no
previous data the first-run dictionary is returned; otherwise the success
dictionary is assembled from the pieces above, with
`previous_date = previous_data.get('date', ...)` and
`total_holdings = len(current_holdings)`. -/
def compare_holdings (today : String) (current_holdings : List Row)
    (previous_data : Option SnapshotData) : ComparisonResult :=
  match previous_data with
  | none => .first_run current_holdings.length
  | some prev =>
    .success today prev.date current_holdings.length
      (new_holdings_of current_holdings prev.holdings)
      (removed_holdings_of current_holdings prev.holdings)
      (weight_changes_of current_holdings prev.holdings)
      (significant_changes_of current_holdings prev.holdings)

/-- `sorted(self.data_dir.glob("holdings_*.json"), reverse=True)`: the
snapshot files in descending filename order (stable; `reverse=True`
keeps ties in encounter order).  Each file carries its read/parse
result: `none` models an unreadable or unparsable file. -/
def sortFilesDesc (files : List (String × Option SnapshotData)) :
    List (String × Option SnapshotData) :=
  files.mergeSort (fun a b => !(a.1 < b.1))

/-- `load_previous_holdings`: take the second entry of the descending
file list; with fewer than two files, or when reading/parsing that file
fails, return `none`. -/
def load_previous_holdings (files : List (String × Option SnapshotData)) :
    Option SnapshotData :=
  match sortFilesDesc files with
  | _ :: second :: _ => second.2
  | _ => none

/-! ## The report (`generate_report`)

The report is modelled as the list of strings Python appends to `report`
(the function's final `"\n".join(report)` is `String.intercalate`).
`gen` stands for the `datetime.now()` timestamp of the footer. -/

/-- `"=" * 70`. -/
def eq70 : String := String.mk (List.replicate 70 '=')

/-- `"─" * 70`. -/
def dash70 : String := String.mk (List.replicate 70 '─')

/-- `comparison.get('date', 'N/A')`: the first-run dictionary has no
`'date'` key. -/
def reportDate : ComparisonResult → String
  | .first_run _ => "N/A"
  | .success d _ _ _ _ _ _ => d

/-- The lines appended for one entry of `new_holdings`: the ticker, and
the name when it is a non-empty string (`if holding['name']:`). -/
def newHoldingLines (h : String × String) : List String :=
  ("  ✓ " ++ h.1) :: (if h.2 ≠ "" then ["    " ++ h.2] else [])

/-- The lines appended for one entry of `removed_holdings`. -/
def removedHoldingLines (h : String × String) : List String :=
  ("  ✗ " ++ h.1) :: (if h.2 ≠ "" then ["    " ++ h.2] else [])

/-- Round a rational to integer thousandths, halves away from zero
upwards: the kernel of the `:.3f` rendering (the double-precision
round-half-even step of CPython is not modelled; no claim touches it). -/
def milli (q : ℚ) : ℤ :=
  Int.fdiv (2000 * q.num + (q.den : ℤ)) (2 * (q.den : ℤ))

/-- Zero-pad a thousandths remainder to three digits. -/
def natPad3 (n : ℕ) : String :=
  if n < 10 then "00" ++ toString n
  else if n < 100 then "0" ++ toString n
  else toString n

/-- `f"{x:.3f}"`. -/
def fmt3 (q : ℚ) : String :=
  let m := milli q
  if m < 0 then "-" ++ toString ((-m).toNat / 1000) ++ "." ++ natPad3 ((-m).toNat % 1000)
  else toString (m.toNat / 1000) ++ "." ++ natPad3 (m.toNat % 1000)

/-- `f"{x:+.3f}"`: always signed. -/
def fmt3Signed (q : ℚ) : String :=
  if milli q < 0 then fmt3 q else "+" ++ fmt3 q

/-- The lines appended for one rendered `weight_changes` entry: the
direction arrow (`"↑" if change > 0 else "↓"`) with the ticker, the name
when non-empty, and the `prev% → curr% (signed change%)` line. -/
def entryLines (c : WeightChange) : List String :=
  ("\n  " ++ (if 0 < c.change then "↑" else "↓") ++ " " ++ c.ticker) ::
    ((if c.name ≠ "" then ["    " ++ c.name] else []) ++
      ["    " ++ fmt3 c.previous_weight ++ "% → " ++ fmt3 c.current_weight ++
        "% (" ++ fmt3Signed c.change ++ "%)"])

/-- The `NEW HOLDINGS ADDED` block, present when the list is non-empty. -/
def newBlock (nh : List (String × String)) : List String :=
  if nh.isEmpty then []
  else
    ("\n" ++ dash70) :: ("📈 NEW HOLDINGS ADDED (" ++ toString nh.length ++ ")") ::
      dash70 :: nh.flatMap newHoldingLines

/-- The `HOLDINGS REMOVED` block, present when the list is non-empty. -/
def removedBlock (rh : List (String × String)) : List String :=
  if rh.isEmpty then []
  else
    ("\n" ++ dash70) :: ("📉 HOLDINGS REMOVED (" ++ toString rh.length ++ ")") ::
      dash70 :: rh.flatMap removedHoldingLines

/-- The `SIGNIFICANT WEIGHT CHANGES (Top 10)` block: only the first 10
entries are rendered (`weight_changes[:10]`), and a
`... and N more weight changes` line is appended when more than 10
exist. -/
def weightBlock (wc : List WeightChange) : List String :=
  if wc.isEmpty then []
  else
    ("\n" ++ dash70) :: "⚖️  SIGNIFICANT WEIGHT CHANGES (Top 10)" ::
      dash70 :: ((wc.take 10).flatMap entryLines ++
        (if 10 < wc.length then
          ["\n  ... and " ++ toString (wc.length - 10) ++ " more weight changes"]
        else []))

/-- The `No significant changes` notice, appended exactly when
`significant_changes == 0`. -/
def noChangeBlock (sc : ℕ) : List String :=
  if sc = 0 then
    [("\n" ++ dash70), "✓ No significant changes detected since last update", dash70]
  else []

/-- The header lines shared by both branches. -/
def headerLines (c : ComparisonResult) : List String :=
  [eq70, "iShares US Financials ETF (IXG) - Daily Holdings Report", eq70,
    "\nReport Date: " ++ reportDate c]

/-- The footer lines shared by both branches. -/
def footerLines (gen : String) : List String :=
  [("\n" ++ eq70), "Generated: " ++ gen, eq70]

/-- `generate_report`, as the list of appended lines. -/
def report_lines (gen : String) (comparison : ComparisonResult) : List String :=
  headerLines comparison ++
    (match comparison with
      | .first_run total =>
        [("\nTotal Holdings: " ++ toString total),
          "\n⚠️  This is the first data collection.",
          "No historical data available for comparison.",
          ("\nStarting tomorrow, you" ++ String.singleton '\'' ++ "ll see daily changes!")]
      | .success _ pdate total nh rh wc sc =>
        [("Comparing with: " ++ pdate),
          ("\nTotal Holdings: " ++ toString total),
          ("Total Changes Detected: " ++ toString sc)] ++
          newBlock nh ++ removedBlock rh ++ weightBlock wc ++ noChangeBlock sc) ++
    footerLines gen

/-- `generate_report`'s return value: `"\n".join(report)`. -/
def generate_report (gen : String) (comparison : ComparisonResult) : String :=
  String.intercalate "\n" (report_lines gen comparison)

/-! ## Line classifiers used to state the report claims -/

/-- Recognise the first line of a rendered weight-change entry: it is the
only kind of line beginning with a newline, two spaces and an arrow. -/
def isEntryLine (u : String) : Bool :=
  u.data.take 4 == ['\n', ' ', ' ', '↑'] || u.data.take 4 == ['\n', ' ', ' ', '↓']

/-- Recognise the `... and N more weight changes` line: the only kind of
line beginning with a newline, two spaces and a dot. -/
def isMoreLine (u : String) : Bool :=
  u.data.take 4 == ['\n', ' ', ' ', '.']

/-- Recognise the first line of any of the three change blocks by its
leading emoji. -/
def isBlockHeader (u : String) : Bool :=
  u.data.take 1 == ['📈'] || u.data.take 1 == ['📉'] || u.data.take 1 == ['⚖']

/-- Modelled from the spec: the weight parse step as the specification
words it — "strip a trailing '%' and surrounding whitespace, parse as a
floating-point number; treat an empty string as 0".  Used only to compare
the specified parse against the implemented one. -/
def specParseWeight (s : String) : Option ℚ :=
  let t := pyStrip s.data
  let t2 := match t.getLast? with
    | some '%' => t.dropLast
    | _ => t
  if t2 = [] then some 0 else parseFloat (String.mk t2)

/-! ## Mapping lemmas: `insertEntry`, `extract_info` -/

theorem lookup_map_replace_of_mem (m : List (String × HoldingEntry)) (k : String)
    (v : HoldingEntry) (h : k ∈ tickersOf m) :
    List.lookup k (m.map (fun p => if p.1 == k then (k, v) else p)) = some v := by
  induction m with
  | nil => simp [tickersOf] at h
  | cons p rest ih =>
    obtain ⟨pk, pv⟩ := p
    by_cases hpk : pk = k
    · subst hpk
      simp
    · have hb : (pk == k) = false := beq_eq_false_iff_ne.mpr hpk
      have hkb : (k == pk) = false := beq_eq_false_iff_ne.mpr (Ne.symm hpk)
      have hmem : k ∈ tickersOf rest := by
        have h' : k = pk ∨ k ∈ tickersOf rest := by simpa [tickersOf] using h
        rcases h' with h' | h'
        · exact absurd h'.symm hpk
        · exact h'
      simp only [List.map_cons, hb, Bool.false_eq_true, if_false]
      rw [List.lookup_cons]
      simp only [hkb]
      exact ih hmem

theorem lookup_map_replace_of_ne (m : List (String × HoldingEntry)) (k t : String)
    (v : HoldingEntry) (h : t ≠ k) :
    List.lookup t (m.map (fun p => if p.1 == k then (k, v) else p)) = List.lookup t m := by
  induction m with
  | nil => simp
  | cons p rest ih =>
    obtain ⟨pk, pv⟩ := p
    by_cases hpk : pk = k
    · subst hpk
      have h1 : (t == pk) = false := beq_eq_false_iff_ne.mpr h
      simp only [List.map_cons, beq_self_eq_true, if_true]
      rw [List.lookup_cons, List.lookup_cons]
      simp only [h1]
      exact ih
    · have hb : (pk == k) = false := beq_eq_false_iff_ne.mpr hpk
      simp only [List.map_cons, hb, Bool.false_eq_true, if_false]
      rw [List.lookup_cons, List.lookup_cons]
      cases htp : (t == pk) with
      | true => rfl
      | false => exact ih

theorem lookup_append_single_self (m : List (String × HoldingEntry)) (k : String)
    (v : HoldingEntry) (h : k ∉ tickersOf m) :
    List.lookup k (m ++ [(k, v)]) = some v := by
  induction m with
  | nil => simp
  | cons p rest ih =>
    obtain ⟨pk, pv⟩ := p
    have hpk : k ≠ pk := by
      intro hk
      exact h (by simp [tickersOf, hk])
    have hb : (k == pk) = false := beq_eq_false_iff_ne.mpr hpk
    have hrest : k ∉ tickersOf rest := by
      intro hm
      exact h (by simp [tickersOf] at hm ⊢; exact .inr hm)
    rw [List.cons_append, List.lookup_cons]
    simp only [hb]
    exact ih hrest

theorem lookup_append_single_ne (m : List (String × HoldingEntry)) (k t : String)
    (v : HoldingEntry) (h : t ≠ k) :
    List.lookup t (m ++ [(k, v)]) = List.lookup t m := by
  induction m with
  | nil => simp [List.lookup_cons, beq_eq_false_iff_ne.mpr h]
  | cons p rest ih =>
    obtain ⟨pk, pv⟩ := p
    rw [List.cons_append, List.lookup_cons, List.lookup_cons]
    cases htp : (t == pk) with
    | true => rfl
    | false => exact ih

theorem any_beq_iff_mem_tickersOf (m : List (String × HoldingEntry)) (k : String) :
    m.any (fun p => p.1 == k) = true ↔ k ∈ tickersOf m := by
  simp [List.any_eq_true, tickersOf, beq_iff_eq]

theorem lookup_insertEntry_self (m : List (String × HoldingEntry)) (k : String)
    (v : HoldingEntry) : List.lookup k (insertEntry m k v) = some v := by
  unfold insertEntry
  by_cases h : k ∈ tickersOf m
  · rw [if_pos ((any_beq_iff_mem_tickersOf m k).mpr h)]
    exact lookup_map_replace_of_mem m k v h
  · rw [if_neg (by rw [any_beq_iff_mem_tickersOf]; exact h)]
    exact lookup_append_single_self m k v h

theorem lookup_insertEntry_ne (m : List (String × HoldingEntry)) (k t : String)
    (v : HoldingEntry) (h : t ≠ k) :
    List.lookup t (insertEntry m k v) = List.lookup t m := by
  unfold insertEntry
  by_cases hm : m.any (fun p => p.1 == k) = true
  · rw [if_pos hm]; exact lookup_map_replace_of_ne m k t v h
  · rw [if_neg hm]; exact lookup_append_single_ne m k t v h

theorem tickersOf_insertEntry_of_mem (m : List (String × HoldingEntry)) (k : String)
    (v : HoldingEntry) (h : k ∈ tickersOf m) :
    tickersOf (insertEntry m k v) = tickersOf m := by
  unfold insertEntry
  rw [if_pos ((any_beq_iff_mem_tickersOf m k).mpr h)]
  unfold tickersOf
  rw [List.map_map]
  apply List.map_congr_left
  intro p _
  by_cases hpk : p.1 = k
  · simp [Function.comp, beq_iff_eq.mpr hpk, hpk]
  · simp [Function.comp, beq_eq_false_iff_ne.mpr hpk]

theorem tickersOf_insertEntry_of_not_mem (m : List (String × HoldingEntry)) (k : String)
    (v : HoldingEntry) (h : k ∉ tickersOf m) :
    tickersOf (insertEntry m k v) = tickersOf m ++ [k] := by
  unfold insertEntry
  rw [if_neg (by rw [any_beq_iff_mem_tickersOf]; exact h)]
  simp [tickersOf]

theorem mem_tickersOf_insertEntry (m : List (String × HoldingEntry)) (k t : String)
    (v : HoldingEntry) :
    t ∈ tickersOf (insertEntry m k v) ↔ t ∈ tickersOf m ∨ t = k := by
  by_cases h : k ∈ tickersOf m
  · rw [tickersOf_insertEntry_of_mem m k v h]
    constructor
    · exact .inl
    · rintro (hm | rfl)
      · exact hm
      · exact h
  · rw [tickersOf_insertEntry_of_not_mem m k v h]
    simp

theorem nodup_tickersOf_insertEntry (m : List (String × HoldingEntry)) (k : String)
    (v : HoldingEntry) (h : (tickersOf m).Nodup) :
    (tickersOf (insertEntry m k v)).Nodup := by
  by_cases hk : k ∈ tickersOf m
  · rwa [tickersOf_insertEntry_of_mem m k v hk]
  · rw [tickersOf_insertEntry_of_not_mem m k v hk]
    simpa [List.nodup_append] using ⟨h, hk⟩

theorem lookup_isSome_iff_mem_tickersOf (m : List (String × HoldingEntry)) (t : String) :
    (List.lookup t m).isSome = true ↔ t ∈ tickersOf m := by
  induction m with
  | nil => simp [tickersOf]
  | cons p rest ih =>
    by_cases hpt : t = p.1
    · simp [List.lookup, beq_iff_eq.mpr hpt, tickersOf, hpt]
    · obtain ⟨pk, pv⟩ := p
      have hb : (t == pk) = false := beq_eq_false_iff_ne.mpr hpt
      rw [List.lookup_cons]
      simp only [hb, tickersOf, List.map_cons, List.mem_cons]
      simp only [tickersOf] at ih
      rw [ih]
      constructor
      · exact .inr
      · rintro (h' | h')
        · exact absurd h' hpt
        · exact h'

theorem lookup_eq_none_iff_not_mem_tickersOf (m : List (String × HoldingEntry))
    (t : String) : List.lookup t m = none ↔ t ∉ tickersOf m := by
  rw [← lookup_isSome_iff_mem_tickersOf]
  cases List.lookup t m <;> simp

theorem exists_lookup_eq_some_of_mem_tickersOf (m : List (String × HoldingEntry))
    (t : String) (h : t ∈ tickersOf m) : ∃ e, List.lookup t m = some e := by
  have := (lookup_isSome_iff_mem_tickersOf m t).mpr h
  cases hl : List.lookup t m with
  | none => rw [hl] at this; simp at this
  | some e => exact ⟨e, rfl⟩

theorem extractStep_short (m : List (String × HoldingEntry)) (r : Row)
    (h : r.length < 3) : extractStep m r = m := by
  match r, h with
  | [], _ => rfl
  | [_], _ => rfl
  | [_, _], _ => rfl
  | _ :: _ :: _ :: _, h => simp at h; omega

theorem extract_info_append (l₁ l₂ : List Row) :
    extract_info (l₁ ++ l₂) = l₂.foldl extractStep (extract_info l₁) := by
  unfold extract_info
  exact List.foldl_append _ _ _ _

theorem extract_info_snoc (l : List Row) (r : Row) :
    extract_info (l ++ [r]) = extractStep (extract_info l) r := by
  rw [extract_info_append]; rfl

theorem nodup_tickersOf_extract_info (l : List Row) :
    (tickersOf (extract_info l)).Nodup := by
  suffices h : ∀ (rows : List Row) (m : List (String × HoldingEntry)),
      (tickersOf m).Nodup → (tickersOf (rows.foldl extractStep m)).Nodup by
    exact h l [] (by simp [tickersOf])
  intro rows
  induction rows with
  | nil => intro m hm; exact hm
  | cons r rest ih =>
    intro m hm
    rw [List.foldl_cons]
    apply ih
    match r with
    | ticker :: name :: weight :: _ => exact nodup_tickersOf_insertEntry m ticker _ hm
    | [] => exact hm
    | [_] => exact hm
    | [_, _] => exact hm

theorem contains_iff_mem_strings (l : List String) (t : String) :
    l.contains t = true ↔ t ∈ l := by
  simp

/-! ## Lemmas for the self-comparison claim -/

theorem new_tickers_self (l : List Row) : new_tickers l l = [] := by
  rw [new_tickers, List.filter_eq_nil_iff]
  intro t ht
  simpa using ht

theorem removed_tickers_self (l : List Row) : removed_tickers l l = [] := by
  rw [removed_tickers, List.filter_eq_nil_iff]
  intro t ht
  simpa using ht

theorem weight_changes_raw_self (l : List Row) : weight_changes_raw l l = [] := by
  rw [weight_changes_raw, List.filterMap_eq_nil_iff]
  intro t ht
  rw [weightChangeAt]
  cases hp : parseWeightField (getEntry (extract_info l) t).weight with
  | none => rfl
  | some q =>
    have habs : ¬ (1 / 100 : ℚ) < |q - q| := by simp
    simp [hp, habs]

/-- C2: comparing a snapshot's holdings against a previous snapshot with
identical holdings yields a success result with empty `new_holdings`,
empty `removed_holdings`, empty `weight_changes` and
`significant_changes = 0`. -/
theorem diff_self_empty (today d : String) (cur : List Row) :
    compare_holdings today cur (some ⟨d, cur⟩) =
      .success today d cur.length [] [] [] 0 := by
  rw [compare_holdings]
  have hn := new_tickers_self cur
  have hr := removed_tickers_self cur
  have hw := weight_changes_raw_self cur
  rw [new_holdings_of, removed_holdings_of, weight_changes_of,
    significant_changes_of, hn, hr, hw]
  simp

/-! ## C4: rows with fewer than 3 fields are skipped entirely -/

theorem extract_info_middle_short (l₁ l₂ : List Row) (r : Row) (h : r.length < 3) :
    extract_info (l₁ ++ r :: l₂) = extract_info (l₁ ++ l₂) := by
  have : l₁ ++ r :: l₂ = (l₁ ++ [r]) ++ l₂ := by simp
  rw [this, extract_info_append, extract_info_snoc, extractStep_short _ _ h,
    ← extract_info_append]

/-- C4: a holding row with fewer than 3 fields contributes nothing: the
ticker mapping, both difference lists, the weight comparisons and the
significant-change count are unchanged whether the row is present (in
either snapshot) or not. -/
theorem short_row_skipped (l₁ l₂ other : List Row) (r : Row) (h : r.length < 3) :
    extract_info (l₁ ++ r :: l₂) = extract_info (l₁ ++ l₂) ∧
    new_holdings_of (l₁ ++ r :: l₂) other = new_holdings_of (l₁ ++ l₂) other ∧
    new_holdings_of other (l₁ ++ r :: l₂) = new_holdings_of other (l₁ ++ l₂) ∧
    removed_holdings_of (l₁ ++ r :: l₂) other = removed_holdings_of (l₁ ++ l₂) other ∧
    removed_holdings_of other (l₁ ++ r :: l₂) = removed_holdings_of other (l₁ ++ l₂) ∧
    weight_changes_of (l₁ ++ r :: l₂) other = weight_changes_of (l₁ ++ l₂) other ∧
    weight_changes_of other (l₁ ++ r :: l₂) = weight_changes_of other (l₁ ++ l₂) ∧
    significant_changes_of (l₁ ++ r :: l₂) other = significant_changes_of (l₁ ++ l₂) other ∧
    significant_changes_of other (l₁ ++ r :: l₂) = significant_changes_of other (l₁ ++ l₂) := by
  have he := extract_info_middle_short l₁ l₂ r h
  have hwl : weightChangeAt (l₁ ++ r :: l₂) other = weightChangeAt (l₁ ++ l₂) other := by
    funext t
    unfold weightChangeAt
    rw [he]
  have hwr : weightChangeAt other (l₁ ++ r :: l₂) = weightChangeAt other (l₁ ++ l₂) := by
    funext t
    unfold weightChangeAt
    rw [he]
  refine ⟨he, ?_, ?_, ?_, ?_, ?_, ?_, ?_, ?_⟩ <;>
    simp only [new_holdings_of, removed_holdings_of, weight_changes_of,
      significant_changes_of, new_tickers, removed_tickers, common_tickers,
      weight_changes_raw, getEntry, he, hwl, hwr]

/-- Witness for C4 at a concrete short row. -/
theorem short_row_skipped_witness :
    extract_info ([[ "AAPL", "Apple", "5.0" ]] ++ ["ORPHAN"] :: []) =
      extract_info ([[ "AAPL", "Apple", "5.0" ]] ++ []) ∧
    significant_changes_of ([[ "AAPL", "Apple", "5.0" ]] ++ ["ORPHAN"] :: [])
        [[ "AAPL", "Apple", "5.0" ]] =
      significant_changes_of ([[ "AAPL", "Apple", "5.0" ]] ++ [])
        [[ "AAPL", "Apple", "5.0" ]] := by
  have h := short_row_skipped [[ "AAPL", "Apple", "5.0" ]] [] [[ "AAPL", "Apple", "5.0" ]]
    ["ORPHAN"] (by decide)
  exact ⟨h.1, h.2.2.2.2.2.2.2.1⟩

/-! ## C8: last row wins on a duplicate ticker -/

/-- C8: folding rows left to right, a trailing row with at least 3 fields
overrides the mapping at its own ticker — the mapping keeps the name and
weight of the last such row — and leaves every other ticker unchanged. -/
theorem last_row_wins (rows : List Row) (ticker name weight : String)
    (rest : List String) :
    List.lookup ticker (extract_info (rows ++ [ticker :: name :: weight :: rest])) =
      some ⟨name, weight⟩ ∧
    ∀ t, t ≠ ticker →
      List.lookup t (extract_info (rows ++ [ticker :: name :: weight :: rest])) =
        List.lookup t (extract_info rows) := by
  rw [extract_info_snoc]
  constructor
  · exact lookup_insertEntry_self _ ticker _
  · intro t ht
    exact lookup_insertEntry_ne _ ticker t _ ht

/-- Witness for C8: two rows share the ticker `"A"`; the mapping keeps the
second row's name and weight, and the ticker `"B"` is unaffected. -/
theorem last_row_wins_witness :
    List.lookup "A" (extract_info ([["A", "x", "1"]] ++ [["A", "y", "2"]])) =
      some ⟨"y", "2"⟩ ∧
    List.lookup "B" (extract_info ([["A", "x", "1"]] ++ [["A", "y", "2"]])) =
      List.lookup "B" (extract_info [["A", "x", "1"]]) := by
  have h := last_row_wins [["A", "x", "1"]] "A" "y" "2" []
  exact ⟨h.1, h.2 "B" (by decide)⟩

/-! ## Shape of a produced weight-change entry -/

theorem weightChangeAt_some_shape (cur prev : List Row) (t : String) (e : WeightChange)
    (h : weightChangeAt cur prev t = some e) :
    ∃ qc qp, parseWeightField (getEntry (extract_info cur) t).weight = some qc ∧
      parseWeightField (getEntry (extract_info prev) t).weight = some qp ∧
      1 / 100 < |qc - qp| ∧
      e = ⟨t, (getEntry (extract_info cur) t).name, qp, qc, qc - qp⟩ := by
  unfold weightChangeAt at h
  split at h
  · rename_i cw pw hc hp
    split at h
    · rename_i hlt
      injection h with h
      exact ⟨cw, pw, hc, hp, hlt, h.symm⟩
    · exact absurd h (by simp)
  · exact absurd h (by simp)

theorem weightChangeAt_of_parsed (cur prev : List Row) (t : String) (ce pe : HoldingEntry)
    (qc qp : ℚ)
    (hce : List.lookup t (extract_info cur) = some ce)
    (hpe : List.lookup t (extract_info prev) = some pe)
    (hqc : parseWeightField ce.weight = some qc)
    (hqp : parseWeightField pe.weight = some qp) :
    weightChangeAt cur prev t =
      if 1 / 100 < |qc - qp| then some ⟨t, ce.name, qp, qc, qc - qp⟩ else none := by
  unfold weightChangeAt
  rw [show getEntry (extract_info cur) t = ce from by simp [getEntry, hce],
    show getEntry (extract_info prev) t = pe from by simp [getEntry, hpe], hqc, hqp]

theorem mem_common_tickers (cur prev : List Row) (t : String) :
    t ∈ common_tickers cur prev ↔
      t ∈ tickersOf (extract_info cur) ∧ t ∈ tickersOf (extract_info prev) := by
  rw [common_tickers, List.mem_filter]
  simp

/-- C1: for a ticker present in both mappings whose weight fields both
parse, a `weight_changes` entry for it exists iff
`abs(curr - prev) > 0.01`, and any entry for it has
`change = curr - prev` (signed). -/
theorem weight_change_iff (cur prev : List Row) (t : String) (ce pe : HoldingEntry)
    (qc qp : ℚ)
    (hce : List.lookup t (extract_info cur) = some ce)
    (hpe : List.lookup t (extract_info prev) = some pe)
    (hqc : parseWeightField ce.weight = some qc)
    (hqp : parseWeightField pe.weight = some qp) :
    ((∃ e ∈ weight_changes_of cur prev, e.ticker = t) ↔ 1 / 100 < |qc - qp|) ∧
    (∀ e ∈ weight_changes_of cur prev, e.ticker = t → e.change = qc - qp) := by
  have htc : t ∈ tickersOf (extract_info cur) :=
    (lookup_isSome_iff_mem_tickersOf _ t).mp (by rw [hce]; rfl)
  have htp : t ∈ tickersOf (extract_info prev) :=
    (lookup_isSome_iff_mem_tickersOf _ t).mp (by rw [hpe]; rfl)
  have hcommon : t ∈ common_tickers cur prev := (mem_common_tickers cur prev t).mpr ⟨htc, htp⟩
  have hat := weightChangeAt_of_parsed cur prev t ce pe qc qp hce hpe hqc hqp
  have hmem : ∀ e, e ∈ weight_changes_of cur prev ↔ e ∈ weight_changes_raw cur prev :=
    fun e => (List.mergeSort_perm (weight_changes_raw cur prev) wcLE).mem_iff
  have hticker : ∀ e ∈ weight_changes_raw cur prev, e.ticker = t →
      weightChangeAt cur prev t = some e := by
    intro e he het
    obtain ⟨a, _, ha⟩ := List.mem_filterMap.mp he
    obtain ⟨qc', qp', _, _, _, hshape⟩ := weightChangeAt_some_shape cur prev a e ha
    have : a = t := by rw [hshape] at het; exact het
    rwa [this] at ha
  constructor
  · constructor
    · rintro ⟨e, he, het⟩
      have := hticker e ((hmem e).mp he) het
      rw [hat] at this
      by_cases hlt : (1 / 100 : ℚ) < |qc - qp|
      · exact hlt
      · rw [if_neg hlt] at this
        exact absurd this (by simp)
    · intro hlt
      refine ⟨⟨t, ce.name, qp, qc, qc - qp⟩, (hmem _).mpr ?_, rfl⟩
      exact List.mem_filterMap.mpr ⟨t, hcommon, by rw [hat, if_pos hlt]⟩
  · intro e he het
    have := hticker e ((hmem e).mp he) het
    rw [hat] at this
    by_cases hlt : (1 / 100 : ℚ) < |qc - qp|
    · rw [if_pos hlt] at this
      have := (Option.some.injEq _ _ ▸ this)
      rw [← this]
    · rw [if_neg hlt] at this
      exact absurd this (by simp)

/-- Witness for C1: weights `1.0101%` against `1`, a signed delta of
`0.0101`, which is strictly above the threshold. -/
theorem weight_change_iff_witness :
    ((∃ e ∈ weight_changes_of [["AAPL", "Apple", "1.0101%"]] [["AAPL", "Apple", "1"]],
        e.ticker = "AAPL") ↔
      (1 / 100 : ℚ) <
        |1 * (((1 : ℕ) : ℚ) + ((101 : ℕ) : ℚ) / (10 : ℚ) ^ (4 : ℕ)) -
          1 * (((1 : ℕ) : ℚ) + ((0 : ℕ) : ℚ) / (10 : ℚ) ^ (0 : ℕ))|) ∧
    (∀ e ∈ weight_changes_of [["AAPL", "Apple", "1.0101%"]] [["AAPL", "Apple", "1"]],
      e.ticker = "AAPL" →
        e.change = 1 * (((1 : ℕ) : ℚ) + ((101 : ℕ) : ℚ) / (10 : ℚ) ^ (4 : ℕ)) -
          1 * (((1 : ℕ) : ℚ) + ((0 : ℕ) : ℚ) / (10 : ℚ) ^ (0 : ℕ))) :=
  weight_change_iff [["AAPL", "Apple", "1.0101%"]] [["AAPL", "Apple", "1"]] "AAPL"
    ⟨"Apple", "1.0101%"⟩ ⟨"Apple", "1"⟩ _ _ rfl rfl rfl rfl

/-! ## C3: sortedness and stability of `weight_changes` -/

theorem wcLE_trans : ∀ a b c : WeightChange,
    wcLE a b = true → wcLE b c = true → wcLE a c = true := by
  intro a b c hab hbc
  simp only [wcLE, decide_eq_true_eq] at hab hbc ⊢
  exact le_trans hbc hab

theorem wcLE_total : ∀ a b : WeightChange, (wcLE a b || wcLE b a) = true := by
  intro a b
  simp only [wcLE, Bool.or_eq_true, decide_eq_true_eq]
  exact le_total _ _

theorem filter_abs_mergeSort (l : List WeightChange) (q : ℚ) :
    (l.mergeSort wcLE).filter (fun e => decide (|e.change| = q)) =
      l.filter (fun e => decide (|e.change| = q)) := by
  have hpair : (l.filter (fun e => decide (|e.change| = q))).Pairwise
      (fun a b => wcLE a b = true) := by
    apply List.pairwise_of_forall_mem_list
    intro a ha b hb
    have ha' : |a.change| = q := by simpa using (List.mem_filter.mp ha).2
    have hb' : |b.change| = q := by simpa using (List.mem_filter.mp hb).2
    simp [wcLE, ha', hb']
  have hsub : (l.filter (fun e => decide (|e.change| = q))).Sublist (l.mergeSort wcLE) :=
    List.sublist_mergeSort wcLE_trans wcLE_total hpair (List.filter_sublist l)
  have hsub2 : (l.filter (fun e => decide (|e.change| = q))).Sublist
      ((l.mergeSort wcLE).filter (fun e => decide (|e.change| = q))) := by
    have h1 := List.Sublist.filter (fun e => decide (|e.change| = q)) hsub
    rwa [List.filter_eq_self.mpr (fun a ha => (List.mem_filter.mp ha).2)] at h1
  have hlen : ((l.mergeSort wcLE).filter (fun e => decide (|e.change| = q))).length =
      (l.filter (fun e => decide (|e.change| = q))).length :=
    ((List.mergeSort_perm l wcLE).filter _).length_eq
  exact (hsub2.eq_of_length hlen.symm).symm

/-- C3: in every success result, `weight_changes` is pairwise sorted by
descending absolute change, and for each absolute-change value the
entries carrying it appear exactly as in the unsorted loop output — the
sort is stable with respect to the encounter order. -/
theorem weight_changes_sorted_stable (today : String) (cur : List Row)
    (pd : SnapshotData) (d p : String) (tot : ℕ) (nh rh : List (String × String))
    (wc : List WeightChange) (sc : ℕ)
    (h : compare_holdings today cur (some pd) = .success d p tot nh rh wc sc) :
    wc.Pairwise (fun a b => |b.change| ≤ |a.change|) ∧
    ∀ q : ℚ, wc.filter (fun e => decide (|e.change| = q)) =
      (weight_changes_raw cur pd.holdings).filter (fun e => decide (|e.change| = q)) := by
  rw [compare_holdings] at h
  cases h
  constructor
  · have hs := List.sorted_mergeSort wcLE_trans wcLE_total (weight_changes_raw cur pd.holdings)
    exact hs.imp (fun hab => by simpa [wcLE] using hab)
  · intro q
    exact filter_abs_mergeSort (weight_changes_raw cur pd.holdings) q

/-- Witness for C3 at a concrete comparison. -/
theorem weight_changes_sorted_stable_witness :
    (weight_changes_of [["A", "a", "2"]] [["A", "a", "1"]]).Pairwise
      (fun a b => |b.change| ≤ |a.change|) ∧
    ∀ q : ℚ,
      (weight_changes_of [["A", "a", "2"]] [["A", "a", "1"]]).filter
          (fun e => decide (|e.change| = q)) =
        (weight_changes_raw [["A", "a", "2"]] [["A", "a", "1"]]).filter
          (fun e => decide (|e.change| = q)) :=
  weight_changes_sorted_stable "d" [["A", "a", "2"]] ⟨"p", [["A", "a", "1"]]⟩
    "d" "p" 1 (new_holdings_of [["A", "a", "2"]] [["A", "a", "1"]])
    (removed_holdings_of [["A", "a", "2"]] [["A", "a", "1"]])
    (weight_changes_of [["A", "a", "2"]] [["A", "a", "1"]])
    (significant_changes_of [["A", "a", "2"]] [["A", "a", "1"]]) rfl

/-! ## C7: exactness of `new_holdings` and `removed_holdings` -/

theorem mem_new_holdings_iff (cur prev : List Row) (t n : String) :
    (t, n) ∈ new_holdings_of cur prev ↔
      ∃ e, List.lookup t (extract_info cur) = some e ∧ e.name = n ∧
        List.lookup t (extract_info prev) = none := by
  rw [new_holdings_of, List.mem_map]
  constructor
  · rintro ⟨a, ha, heq⟩
    obtain ⟨hat, han⟩ := Prod.mk.injEq .. ▸ heq
    subst hat
    have hmem := List.mem_filter.mp (by rwa [new_tickers] at ha)
    obtain ⟨e, he⟩ := exists_lookup_eq_some_of_mem_tickersOf _ a hmem.1
    refine ⟨e, he, ?_, ?_⟩
    · rw [← han]
      simp [getEntry, he]
    · rw [lookup_eq_none_iff_not_mem_tickersOf]
      intro hmem'
      have := hmem.2
      simp at this
      exact this hmem'
  · rintro ⟨e, he, hn, hnone⟩
    refine ⟨t, ?_, ?_⟩
    · rw [new_tickers, List.mem_filter]
      refine ⟨(lookup_isSome_iff_mem_tickersOf _ t).mp (by rw [he]; rfl), ?_⟩
      simp
      exact (lookup_eq_none_iff_not_mem_tickersOf _ t).mp hnone
    · simp [getEntry, he, hn]

theorem mem_removed_holdings_iff (cur prev : List Row) (t n : String) :
    (t, n) ∈ removed_holdings_of cur prev ↔
      ∃ e, List.lookup t (extract_info prev) = some e ∧ e.name = n ∧
        List.lookup t (extract_info cur) = none := by
  rw [removed_holdings_of, List.mem_map]
  constructor
  · rintro ⟨a, ha, heq⟩
    obtain ⟨hat, han⟩ := Prod.mk.injEq .. ▸ heq
    subst hat
    have hmem := List.mem_filter.mp (by rwa [removed_tickers] at ha)
    obtain ⟨e, he⟩ := exists_lookup_eq_some_of_mem_tickersOf _ a hmem.1
    refine ⟨e, he, ?_, ?_⟩
    · rw [← han]
      simp [getEntry, he]
    · rw [lookup_eq_none_iff_not_mem_tickersOf]
      intro hmem'
      have := hmem.2
      simp at this
      exact this hmem'
  · rintro ⟨e, he, hn, hnone⟩
    refine ⟨t, ?_, ?_⟩
    · rw [removed_tickers, List.mem_filter]
      refine ⟨(lookup_isSome_iff_mem_tickersOf _ t).mp (by rw [he]; rfl), ?_⟩
      simp
      exact (lookup_eq_none_iff_not_mem_tickersOf _ t).mp hnone
    · simp [getEntry, he, hn]

/-- C7: in every success result, `new_holdings` holds exactly the tickers
present only in the current mapping (with the current snapshot's display
name), `removed_holdings` exactly those present only in the previous
mapping (with the previous snapshot's display name), and no ticker occurs
in both lists. -/
theorem new_removed_exact (today : String) (cur : List Row) (pd : SnapshotData)
    (d p : String) (tot : ℕ) (nh rh : List (String × String)) (wc : List WeightChange)
    (sc : ℕ)
    (h : compare_holdings today cur (some pd) = .success d p tot nh rh wc sc) :
    (∀ t n, (t, n) ∈ nh ↔
      ∃ e, List.lookup t (extract_info cur) = some e ∧ e.name = n ∧
        List.lookup t (extract_info pd.holdings) = none) ∧
    (∀ t n, (t, n) ∈ rh ↔
      ∃ e, List.lookup t (extract_info pd.holdings) = some e ∧ e.name = n ∧
        List.lookup t (extract_info cur) = none) ∧
    (∀ t n m, (t, n) ∈ nh → (t, m) ∉ rh) := by
  rw [compare_holdings] at h
  cases h
  refine ⟨fun t n => mem_new_holdings_iff cur pd.holdings t n,
    fun t n => mem_removed_holdings_iff cur pd.holdings t n, ?_⟩
  intro t n m hn hm
  obtain ⟨e, _, _, hnone⟩ := (mem_new_holdings_iff cur pd.holdings t n).mp hn
  obtain ⟨e', he', _, _⟩ := (mem_removed_holdings_iff cur pd.holdings t m).mp hm
  rw [hnone] at he'
  exact absurd he' (by simp)

/-- Witness for C7 at a concrete comparison. -/
theorem new_removed_exact_witness :
    (∀ t n, (t, n) ∈ new_holdings_of [["GOOG", "Alphabet", "3"]] [["MSFT", "Microsoft", "4"]] ↔
      ∃ e, List.lookup t (extract_info [["GOOG", "Alphabet", "3"]]) = some e ∧ e.name = n ∧
        List.lookup t (extract_info [["MSFT", "Microsoft", "4"]]) = none) ∧
    (∀ t n, (t, n) ∈ removed_holdings_of [["GOOG", "Alphabet", "3"]] [["MSFT", "Microsoft", "4"]] ↔
      ∃ e, List.lookup t (extract_info [["MSFT", "Microsoft", "4"]]) = some e ∧ e.name = n ∧
        List.lookup t (extract_info [["GOOG", "Alphabet", "3"]]) = none) ∧
    (∀ t n m, (t, n) ∈ new_holdings_of [["GOOG", "Alphabet", "3"]] [["MSFT", "Microsoft", "4"]] →
      (t, m) ∉ removed_holdings_of [["GOOG", "Alphabet", "3"]] [["MSFT", "Microsoft", "4"]]) :=
  new_removed_exact "d" [["GOOG", "Alphabet", "3"]] ⟨"p", [["MSFT", "Microsoft", "4"]]⟩
    "d" "p" 1 (new_holdings_of [["GOOG", "Alphabet", "3"]] [["MSFT", "Microsoft", "4"]])
    (removed_holdings_of [["GOOG", "Alphabet", "3"]] [["MSFT", "Microsoft", "4"]])
    (weight_changes_of [["GOOG", "Alphabet", "3"]] [["MSFT", "Microsoft", "4"]])
    (significant_changes_of [["GOOG", "Alphabet", "3"]] [["MSFT", "Microsoft", "4"]]) rfl

/-! ## C10: entry names come from the current snapshot -/

/-- C10: every `weight_changes` entry of a success result carries the
display name recorded for its ticker in the current mapping (not the
previous one). -/
theorem change_name_from_current (today : String) (cur : List Row) (pd : SnapshotData)
    (d p : String) (tot : ℕ) (nh rh : List (String × String)) (wc : List WeightChange)
    (sc : ℕ)
    (h : compare_holdings today cur (some pd) = .success d p tot nh rh wc sc) :
    ∀ e ∈ wc, ∃ ent, List.lookup e.ticker (extract_info cur) = some ent ∧
      e.name = ent.name := by
  rw [compare_holdings] at h
  cases h
  intro e he
  have he' : e ∈ weight_changes_raw cur pd.holdings := List.mem_mergeSort.mp he
  obtain ⟨a, ha, hw⟩ := List.mem_filterMap.mp he'
  obtain ⟨qc, qp, _, _, _, hshape⟩ := weightChangeAt_some_shape _ _ a e hw
  have hmem := ((mem_common_tickers cur pd.holdings a).mp ha).1
  obtain ⟨ent, hent⟩ := exists_lookup_eq_some_of_mem_tickersOf _ a hmem
  subst hshape
  exact ⟨ent, hent, by simp [getEntry, hent]⟩

/-- Witness for C10: the two snapshots record different names for the
ticker `"A"`; the produced entry carries the current snapshot's name. -/
theorem change_name_from_current_witness :
    ∃ ent, List.lookup "A" (extract_info [["A", "NewName", "2"]]) = some ent ∧
      "NewName" = ent.name := by
  have h2 : parseWeightField "2" =
      some (1 * (((2 : ℕ) : ℚ) + ((0 : ℕ) : ℚ) / (10 : ℚ) ^ (0 : ℕ))) := rfl
  norm_num at h2
  have h1 : parseWeightField "1" =
      some (1 * (((1 : ℕ) : ℚ) + ((0 : ℕ) : ℚ) / (10 : ℚ) ^ (0 : ℕ))) := rfl
  norm_num at h1
  have hraw : weight_changes_raw [["A", "NewName", "2"]] [["A", "OldName", "1"]] =
      [⟨"A", "NewName", 1, 2, 1⟩] := by
    have hc : common_tickers [["A", "NewName", "2"]] [["A", "OldName", "1"]] = ["A"] := rfl
    have hg1 : getEntry (extract_info [["A", "NewName", "2"]]) "A" = ⟨"NewName", "2"⟩ := rfl
    have hg2 : getEntry (extract_info [["A", "OldName", "1"]]) "A" = ⟨"OldName", "1"⟩ := rfl
    rw [weight_changes_raw, hc]
    simp only [List.filterMap, weightChangeAt, hg1, hg2, h2, h1]
    norm_num
  have hmem : (⟨"A", "NewName", 1, 2, 1⟩ : WeightChange) ∈
      weight_changes_of [["A", "NewName", "2"]] [["A", "OldName", "1"]] := by
    rw [weight_changes_of, hraw]
    exact List.mem_mergeSort.mpr (List.mem_singleton.mpr rfl)
  exact change_name_from_current "d" [["A", "NewName", "2"]]
    ⟨"p", [["A", "OldName", "1"]]⟩ "d" "p" 1
    (new_holdings_of [["A", "NewName", "2"]] [["A", "OldName", "1"]])
    (removed_holdings_of [["A", "NewName", "2"]] [["A", "OldName", "1"]])
    (weight_changes_of [["A", "NewName", "2"]] [["A", "OldName", "1"]])
    (significant_changes_of [["A", "NewName", "2"]] [["A", "OldName", "1"]]) rfl
    ⟨"A", "NewName", 1, 2, 1⟩ hmem

/-! ## C5: the implemented weight parse versus the specified one -/

/-- Counterexample to C5 as stated: for the weight string `"%5"` the parse
the specification describes (strip a *trailing* `'%'` and surrounding
whitespace) fails, so the claim predicts the ticker is skipped and not
counted; the code instead removes *every* `'%'` character, parses `5`,
emits a weight-change entry for the ticker and counts it. -/
theorem spec_parse_counterexample :
    specParseWeight "%5" = none ∧
    parseWeightField "%5" = some 5 ∧
    weight_changes_raw [["X", "N", "%5"]] [["X", "N", "4"]] =
      [⟨"X", "N", 4, 5, 1⟩] ∧
    significant_changes_of [["X", "N", "%5"]] [["X", "N", "4"]] = 1 := by
  have h5 : parseWeightField "%5" =
      some (1 * (((5 : ℕ) : ℚ) + ((0 : ℕ) : ℚ) / (10 : ℚ) ^ (0 : ℕ))) := rfl
  norm_num at h5
  have h4 : parseWeightField "4" =
      some (1 * (((4 : ℕ) : ℚ) + ((0 : ℕ) : ℚ) / (10 : ℚ) ^ (0 : ℕ))) := rfl
  norm_num at h4
  have hraw : weight_changes_raw [["X", "N", "%5"]] [["X", "N", "4"]] =
      [⟨"X", "N", 4, 5, 1⟩] := by
    have hc : common_tickers [["X", "N", "%5"]] [["X", "N", "4"]] = ["X"] := rfl
    have hg1 : getEntry (extract_info [["X", "N", "%5"]]) "X" = ⟨"N", "%5"⟩ := rfl
    have hg2 : getEntry (extract_info [["X", "N", "4"]]) "X" = ⟨"N", "4"⟩ := rfl
    rw [weight_changes_raw, hc]
    simp only [List.filterMap, weightChangeAt, hg1, hg2, h5, h4]
    norm_num
  refine ⟨rfl, h5, hraw, ?_⟩
  rw [significant_changes_of, hraw]
  rfl

/-- C5 (amended): for a ticker present in both mappings, every
`weight_changes` entry for it carries weights obtained by the implemented
parse — remove every `'%'` character, strip surrounding whitespace, treat
an empty remainder as `0`, otherwise read a float — and when that parse
fails on either side the ticker is skipped silently: no entry is produced
for it (so it is not counted as changed, and no error is raised). -/
theorem parse_failure_skipped (cur prev : List Row) (t : String) (ce pe : HoldingEntry)
    (hce : List.lookup t (extract_info cur) = some ce)
    (hpe : List.lookup t (extract_info prev) = some pe) :
    (∀ e ∈ weight_changes_of cur prev, e.ticker = t →
      ∃ qc qp, parseWeightField ce.weight = some qc ∧
        parseWeightField pe.weight = some qp ∧
        e.previous_weight = qp ∧ e.current_weight = qc ∧ e.change = qc - qp) ∧
    ((parseWeightField ce.weight = none ∨ parseWeightField pe.weight = none) →
      ∀ e ∈ weight_changes_of cur prev, e.ticker ≠ t) := by
  have hgc : getEntry (extract_info cur) t = ce := by simp [getEntry, hce]
  have hgp : getEntry (extract_info prev) t = pe := by simp [getEntry, hpe]
  have key : ∀ e ∈ weight_changes_of cur prev, e.ticker = t →
      ∃ qc qp, parseWeightField ce.weight = some qc ∧
        parseWeightField pe.weight = some qp ∧
        e.previous_weight = qp ∧ e.current_weight = qc ∧ e.change = qc - qp := by
    intro e he het
    have he' : e ∈ weight_changes_raw cur prev := List.mem_mergeSort.mp he
    obtain ⟨a, _, hw⟩ := List.mem_filterMap.mp he'
    obtain ⟨qc, qp, hqc, hqp, _, hshape⟩ := weightChangeAt_some_shape _ _ a e hw
    have hat : a = t := by rw [hshape] at het; exact het
    subst hat
    rw [hgc] at hqc
    rw [hgp] at hqp
    exact ⟨qc, qp, hqc, hqp, by rw [hshape], by rw [hshape], by rw [hshape]⟩
  refine ⟨key, ?_⟩
  rintro hfail e he het
  obtain ⟨qc, qp, hqc, hqp, _, _, _⟩ := key e he het
  rcases hfail with hf | hf
  · rw [hf] at hqc; exact absurd hqc (by simp)
  · rw [hf] at hqp; exact absurd hqp (by simp)

/-- Witness for C5 (amended): the current weight string `"abc"` fails to
parse, so no entry for the ticker is produced. -/
theorem parse_failure_skipped_witness :
    (∀ e ∈ weight_changes_of [["X", "N", "abc"]] [["X", "N", "4"]], e.ticker = "X" →
      ∃ qc qp, parseWeightField "abc" = some qc ∧ parseWeightField "4" = some qp ∧
        e.previous_weight = qp ∧ e.current_weight = qc ∧ e.change = qc - qp) ∧
    ((parseWeightField "abc" = none ∨ parseWeightField "4" = none) →
      ∀ e ∈ weight_changes_of [["X", "N", "abc"]] [["X", "N", "4"]], e.ticker ≠ "X") :=
  parse_failure_skipped [["X", "N", "abc"]] [["X", "N", "4"]] "X"
    ⟨"N", "abc"⟩ ⟨"N", "4"⟩ rfl rfl

/-! ## C6: selection of the previous snapshot -/

theorem fileLE_trans : ∀ a b c : String × Option SnapshotData,
    (!(a.1 < b.1)) = true → (!(b.1 < c.1)) = true → (!(a.1 < c.1)) = true := by
  intro a b c hab hbc
  simp only [Bool.not_eq_eq_eq_not, Bool.not_true, decide_eq_false_iff_not] at hab hbc ⊢
  intro hac
  rcases lt_or_le a.1 b.1 with h | h
  · exact hab h
  · exact hbc (lt_of_le_of_lt h hac)

theorem fileLE_total : ∀ a b : String × Option SnapshotData,
    ((!(a.1 < b.1)) || (!(b.1 < a.1))) = true := by
  intro a b
  rcases lt_or_le a.1 b.1 with h | h
  · simp [not_lt.mpr (le_of_lt h)]
  · simp [not_lt.mpr h]

/-- C6: `load_previous_holdings` sorts the snapshot files into descending
filename order (a permutation of the directory listing, pairwise
non-ascending) and yields the second entry's parse result — `none` both
when fewer than two files exist and when reading/parsing the selected
file failed — and on `none` the comparison returns the first-run result
with `total_holdings` equal to the raw count of current rows. -/
theorem load_previous_spec (files : List (String × Option SnapshotData))
    (today : String) (cur : List Row) :
    (sortFilesDesc files).Pairwise (fun a b => ¬ a.1 < b.1) ∧
    (sortFilesDesc files).Perm files ∧
    (files.length < 2 → load_previous_holdings files = none) ∧
    (∀ a b rest, sortFilesDesc files = a :: b :: rest →
      load_previous_holdings files = b.2) ∧
    compare_holdings today cur none = .first_run cur.length := by
  refine ⟨?_, ?_, ?_, ?_, rfl⟩
  · have hs := List.sorted_mergeSort fileLE_trans fileLE_total files
    exact hs.imp (fun hab => by simpa using hab)
  · exact List.mergeSort_perm files _
  · intro hlen
    have hlen' : (sortFilesDesc files).length < 2 := by
      rw [sortFilesDesc, List.length_mergeSort]
      exact hlen
    rw [load_previous_holdings]
    match hs : sortFilesDesc files, hlen' with
    | [], _ => rfl
    | [a], _ => rfl
    | a :: b :: rest, hl => simp at hl; omega
  · intro a b rest hs
    rw [load_previous_holdings, hs]

/-- Witness for C6: with two files (already in descending name order) the
prior day's parse result is returned; with one file, nothing is. -/
theorem load_previous_spec_witness :
    load_previous_holdings
      [("holdings_2026-10-12.json", none),
        ("holdings_2026-10-11.json", some ⟨"2026-10-11", []⟩)] =
      some ⟨"2026-10-11", []⟩ ∧
    load_previous_holdings [("holdings_2026-10-12.json", none)] = none ∧
    compare_holdings "2026-10-12" [["A", "a", "1"]] none = .first_run 1 := by
  have hlt : ¬ (("holdings_2026-10-12.json" : String) < "holdings_2026-10-11.json") := by
    rw [String.lt_iff_toList_lt]
    decide
  have hp : List.Pairwise
      (fun a b : String × Option SnapshotData => (!(decide (a.1 < b.1))) = true)
      [("holdings_2026-10-12.json", none),
        ("holdings_2026-10-11.json", some ⟨"2026-10-11", []⟩)] := by
    refine List.pairwise_cons.mpr ⟨?_, List.pairwise_singleton _ _⟩
    intro b hb
    rw [List.mem_singleton.mp hb]
    simp [hlt]
  have hsorted : sortFilesDesc
      [("holdings_2026-10-12.json", none),
        ("holdings_2026-10-11.json", some ⟨"2026-10-11", []⟩)] =
      [("holdings_2026-10-12.json", none),
        ("holdings_2026-10-11.json", some ⟨"2026-10-11", []⟩)] := by
    rw [sortFilesDesc]
    exact List.mergeSort_of_sorted hp
  refine ⟨?_, ?_, ?_⟩
  · exact (load_previous_spec _ "2026-10-12" [["A", "a", "1"]]).2.2.2.1 _ _ [] hsorted
  · exact (load_previous_spec [("holdings_2026-10-12.json", none)]
      "2026-10-12" [["A", "a", "1"]]).2.2.1 (by decide)
  · exact (load_previous_spec [] "2026-10-12" [["A", "a", "1"]]).2.2.2.2

/-! ## C9: line classifiers under concatenation -/

theorem data_take_append (p s : String) (n : ℕ) (h : n ≤ p.data.length) :
    (p ++ s).data.take n = p.data.take n := by
  rw [String.data_append]
  exact List.take_append_of_le_length h

theorem isEntryLine_append_eq (p s : String) (h : 4 ≤ p.data.length) :
    isEntryLine (p ++ s) = isEntryLine p := by
  unfold isEntryLine
  rw [data_take_append p s 4 h]

theorem isMoreLine_append_eq (p s : String) (h : 4 ≤ p.data.length) :
    isMoreLine (p ++ s) = isMoreLine p := by
  unfold isMoreLine
  rw [data_take_append p s 4 h]

theorem isBlockHeader_append_eq (p s : String) (h : 1 ≤ p.data.length) :
    isBlockHeader (p ++ s) = isBlockHeader p := by
  unfold isBlockHeader
  rw [data_take_append p s 1 h]

/-- All three classifiers are false on an indented line (four leading
spaces): the name and numeric lines of every block. -/
theorem classifiers_indent (s : String) :
    isEntryLine ("    " ++ s) = false ∧ isMoreLine ("    " ++ s) = false ∧
      isBlockHeader ("    " ++ s) = false := by
  refine ⟨?_, ?_, ?_⟩
  · rw [isEntryLine_append_eq _ _ (by decide)]; decide
  · rw [isMoreLine_append_eq _ _ (by decide)]; decide
  · rw [isBlockHeader_append_eq _ _ (by decide)]; decide

theorem classifiers_newHoldingLines (h : String × String) :
    ∀ u ∈ newHoldingLines h, isEntryLine u = false ∧ isMoreLine u = false ∧
      isBlockHeader u = false := by
  intro u hu
  rw [newHoldingLines] at hu
  rcases List.mem_cons.mp hu with rfl | hu'
  · refine ⟨?_, ?_, ?_⟩
    · rw [isEntryLine_append_eq _ _ (by decide)]; decide
    · rw [isMoreLine_append_eq _ _ (by decide)]; decide
    · rw [isBlockHeader_append_eq _ _ (by decide)]; decide
  · by_cases hn : h.2 ≠ ""
    · rw [if_pos hn] at hu'
      rw [List.mem_singleton.mp hu']
      exact classifiers_indent h.2
    · rw [if_neg hn] at hu'
      exact absurd hu' (List.not_mem_nil u)

theorem classifiers_removedHoldingLines (h : String × String) :
    ∀ u ∈ removedHoldingLines h, isEntryLine u = false ∧ isMoreLine u = false ∧
      isBlockHeader u = false := by
  intro u hu
  rw [removedHoldingLines] at hu
  rcases List.mem_cons.mp hu with rfl | hu'
  · refine ⟨?_, ?_, ?_⟩
    · rw [isEntryLine_append_eq _ _ (by decide)]; decide
    · rw [isMoreLine_append_eq _ _ (by decide)]; decide
    · rw [isBlockHeader_append_eq _ _ (by decide)]; decide
  · by_cases hn : h.2 ≠ ""
    · rw [if_pos hn] at hu'
      rw [List.mem_singleton.mp hu']
      exact classifiers_indent h.2
    · rw [if_neg hn] at hu'
      exact absurd hu' (List.not_mem_nil u)

/-- The first line of a rendered weight-change entry is recognised by
`isEntryLine` and by neither other classifier. -/
theorem classifiers_dirLine (c : WeightChange) :
    isEntryLine ("\n  " ++ (if 0 < c.change then "↑" else "↓") ++ " " ++ c.ticker) = true ∧
    isMoreLine ("\n  " ++ (if 0 < c.change then "↑" else "↓") ++ " " ++ c.ticker) = false ∧
    isBlockHeader ("\n  " ++ (if 0 < c.change then "↑" else "↓") ++ " " ++ c.ticker) = false := by
  by_cases hc : 0 < c.change
  · rw [if_pos hc, String.append_assoc ("\n  " ++ "↑") " " c.ticker]
    refine ⟨?_, ?_, ?_⟩
    · rw [isEntryLine_append_eq ("\n  " ++ "↑") _ (by decide)]; decide
    · rw [isMoreLine_append_eq ("\n  " ++ "↑") _ (by decide)]; decide
    · rw [isBlockHeader_append_eq ("\n  " ++ "↑") _ (by decide)]; decide
  · rw [if_neg hc, String.append_assoc ("\n  " ++ "↓") " " c.ticker]
    refine ⟨?_, ?_, ?_⟩
    · rw [isEntryLine_append_eq ("\n  " ++ "↓") _ (by decide)]; decide
    · rw [isMoreLine_append_eq ("\n  " ++ "↓") _ (by decide)]; decide
    · rw [isBlockHeader_append_eq ("\n  " ++ "↓") _ (by decide)]; decide

theorem countP_zero_of_false (X : List String) (P : String → Bool)
    (h : ∀ u ∈ X, P u = false) : X.countP P = 0 :=
  List.countP_eq_zero.mpr (fun a ha => by simp [h a ha])

theorem countP_entryLines (c : WeightChange) :
    (entryLines c).countP isEntryLine = 1 ∧
    (entryLines c).countP isMoreLine = 0 ∧
    (entryLines c).countP isBlockHeader = 0 := by
  obtain ⟨h1, h2, h3⟩ := classifiers_dirLine c
  have hname := classifiers_indent c.name
  have hwline : isEntryLine ("    " ++ fmt3 c.previous_weight ++ "% → " ++
        fmt3 c.current_weight ++ "% (" ++ fmt3Signed c.change ++ "%)") = false ∧
      isMoreLine ("    " ++ fmt3 c.previous_weight ++ "% → " ++
        fmt3 c.current_weight ++ "% (" ++ fmt3Signed c.change ++ "%)") = false ∧
      isBlockHeader ("    " ++ fmt3 c.previous_weight ++ "% → " ++
        fmt3 c.current_weight ++ "% (" ++ fmt3Signed c.change ++ "%)") = false := by
    simp only [String.append_assoc]
    exact classifiers_indent _
  rw [entryLines]
  by_cases hn : c.name ≠ ""
  · rw [if_pos hn]
    simp [List.countP_cons, h1, h2, h3, hname.1, hname.2.1, hname.2.2,
      hwline.1, hwline.2.1, hwline.2.2]
  · rw [if_neg hn]
    simp [List.countP_cons, h1, h2, h3, hwline.1, hwline.2.1, hwline.2.2]

theorem countP_flatMap_entryLines (l : List WeightChange) :
    (l.flatMap entryLines).countP isEntryLine = l.length ∧
    (l.flatMap entryLines).countP isMoreLine = 0 ∧
    (l.flatMap entryLines).countP isBlockHeader = 0 := by
  induction l with
  | nil => simp
  | cons c cs ih =>
    obtain ⟨e1, e2, e3⟩ := countP_entryLines c
    refine ⟨?_, ?_, ?_⟩ <;>
      simp [List.flatMap_cons, List.countP_append, e1, e2, e3, ih.1, ih.2.1, ih.2.2,
        Nat.add_comm]

theorem classifiers_moreLine (wc : List WeightChange) :
    isEntryLine ("\n  ... and " ++ toString (wc.length - 10) ++ " more weight changes")
        = false ∧
    isMoreLine ("\n  ... and " ++ toString (wc.length - 10) ++ " more weight changes")
        = true ∧
    isBlockHeader ("\n  ... and " ++ toString (wc.length - 10) ++ " more weight changes")
        = false := by
  rw [String.append_assoc]
  refine ⟨?_, ?_, ?_⟩
  · rw [isEntryLine_append_eq "\n  ... and " _ (by decide)]; decide
  · rw [isMoreLine_append_eq "\n  ... and " _ (by decide)]; decide
  · rw [isBlockHeader_append_eq "\n  ... and " _ (by decide)]; decide

theorem countP_weightBlock (wc : List WeightChange) :
    (weightBlock wc).countP isEntryLine = min 10 wc.length ∧
    (weightBlock wc).countP isMoreLine = (if 10 < wc.length then 1 else 0) ∧
    (10 < wc.length →
      ("\n  ... and " ++ toString (wc.length - 10) ++ " more weight changes") ∈
        weightBlock wc) := by
  rw [weightBlock]
  by_cases he : wc.isEmpty
  · rw [if_pos he]
    have hnil : wc = [] := List.isEmpty_iff.mp he
    subst hnil
    simp
  · rw [if_neg he]
    obtain ⟨f1, f2, f3⟩ := countP_flatMap_entryLines (wc.take 10)
    obtain ⟨m1, m2, m3⟩ := classifiers_moreLine wc
    have hA1 : isEntryLine ("\n" ++ dash70) = false ∧ isMoreLine ("\n" ++ dash70) = false := by
      constructor <;> decide
    have hA2 : isEntryLine "⚖️  SIGNIFICANT WEIGHT CHANGES (Top 10)" = false ∧
        isMoreLine "⚖️  SIGNIFICANT WEIGHT CHANGES (Top 10)" = false := by
      constructor <;> decide
    have hA3 : isEntryLine dash70 = false ∧ isMoreLine dash70 = false := by
      constructor <;> decide
    refine ⟨?_, ?_, ?_⟩
    · by_cases hlen : 10 < wc.length
      · rw [if_pos hlen]
        simp [List.countP_cons, List.countP_append, hA1.1, hA2.1, hA3.1, f1, m1,
          List.length_take]
      · rw [if_neg hlen]
        simp [List.countP_cons, List.countP_append, hA1.1, hA2.1, hA3.1, f1,
          List.length_take]
    · by_cases hlen : 10 < wc.length
      · rw [if_pos hlen, if_pos hlen]
        simp [List.countP_cons, List.countP_append, hA1.2, hA2.2, hA3.2, f2, m2]
      · rw [if_neg hlen, if_neg hlen]
        simp [List.countP_cons, List.countP_append, hA1.2, hA2.2, hA3.2, f2]
    · intro hlen
      rw [if_pos hlen]
      refine List.mem_cons.mpr (.inr (List.mem_cons.mpr (.inr (List.mem_cons.mpr
        (.inr (List.mem_append.mpr (.inr ?_)))))))
      exact List.mem_singleton.mpr rfl

theorem classifiers_newBlock (nh : List (String × String)) :
    ∀ u ∈ newBlock nh, isEntryLine u = false ∧ isMoreLine u = false := by
  intro u hu
  rw [newBlock] at hu
  by_cases he : nh.isEmpty
  · rw [if_pos he] at hu
    exact absurd hu (List.not_mem_nil u)
  · rw [if_neg he] at hu
    rcases List.mem_cons.mp hu with rfl | hu
    · constructor <;> decide
    rcases List.mem_cons.mp hu with rfl | hu
    · rw [String.append_assoc]
      constructor
      · rw [isEntryLine_append_eq "📈 NEW HOLDINGS ADDED (" _ (by decide)]; decide
      · rw [isMoreLine_append_eq "📈 NEW HOLDINGS ADDED (" _ (by decide)]; decide
    rcases List.mem_cons.mp hu with rfl | hu
    · constructor <;> decide
    obtain ⟨x, _, hx⟩ := List.mem_flatMap.mp hu
    obtain ⟨e1, e2, _⟩ := classifiers_newHoldingLines x u hx
    exact ⟨e1, e2⟩

theorem classifiers_removedBlock (rh : List (String × String)) :
    ∀ u ∈ removedBlock rh, isEntryLine u = false ∧ isMoreLine u = false := by
  intro u hu
  rw [removedBlock] at hu
  by_cases he : rh.isEmpty
  · rw [if_pos he] at hu
    exact absurd hu (List.not_mem_nil u)
  · rw [if_neg he] at hu
    rcases List.mem_cons.mp hu with rfl | hu
    · constructor <;> decide
    rcases List.mem_cons.mp hu with rfl | hu
    · rw [String.append_assoc]
      constructor
      · rw [isEntryLine_append_eq "📉 HOLDINGS REMOVED (" _ (by decide)]; decide
      · rw [isMoreLine_append_eq "📉 HOLDINGS REMOVED (" _ (by decide)]; decide
    rcases List.mem_cons.mp hu with rfl | hu
    · constructor <;> decide
    obtain ⟨x, _, hx⟩ := List.mem_flatMap.mp hu
    obtain ⟨e1, e2, _⟩ := classifiers_removedHoldingLines x u hx
    exact ⟨e1, e2⟩

theorem classifiers_headerLines (c : ComparisonResult) :
    ∀ u ∈ headerLines c, isEntryLine u = false ∧ isMoreLine u = false ∧
      isBlockHeader u = false := by
  intro u hu
  rw [headerLines] at hu
  rcases List.mem_cons.mp hu with rfl | hu
  · refine ⟨by decide, by decide, by decide⟩
  rcases List.mem_cons.mp hu with rfl | hu
  · refine ⟨by decide, by decide, by decide⟩
  rcases List.mem_cons.mp hu with rfl | hu
  · refine ⟨by decide, by decide, by decide⟩
  rcases List.mem_cons.mp hu with rfl | hu
  · refine ⟨?_, ?_, ?_⟩
    · rw [isEntryLine_append_eq "\nReport Date: " _ (by decide)]; decide
    · rw [isMoreLine_append_eq "\nReport Date: " _ (by decide)]; decide
    · rw [isBlockHeader_append_eq "\nReport Date: " _ (by decide)]; decide
  · exact absurd hu (List.not_mem_nil u)

theorem classifiers_footerLines (g : String) :
    ∀ u ∈ footerLines g, isEntryLine u = false ∧ isMoreLine u = false ∧
      isBlockHeader u = false := by
  intro u hu
  rw [footerLines] at hu
  rcases List.mem_cons.mp hu with rfl | hu
  · refine ⟨by decide, by decide, by decide⟩
  rcases List.mem_cons.mp hu with rfl | hu
  · refine ⟨?_, ?_, ?_⟩
    · rw [isEntryLine_append_eq "Generated: " _ (by decide)]; decide
    · rw [isMoreLine_append_eq "Generated: " _ (by decide)]; decide
    · rw [isBlockHeader_append_eq "Generated: " _ (by decide)]; decide
  rcases List.mem_cons.mp hu with rfl | hu
  · refine ⟨by decide, by decide, by decide⟩
  · exact absurd hu (List.not_mem_nil u)

theorem classifiers_successHead (pdate : String) (total sc : ℕ) :
    ∀ u ∈ [("Comparing with: " ++ pdate), ("\nTotal Holdings: " ++ toString total),
        ("Total Changes Detected: " ++ toString sc)],
      isEntryLine u = false ∧ isMoreLine u = false ∧ isBlockHeader u = false := by
  intro u hu
  rcases List.mem_cons.mp hu with rfl | hu
  · refine ⟨?_, ?_, ?_⟩
    · rw [isEntryLine_append_eq "Comparing with: " _ (by decide)]; decide
    · rw [isMoreLine_append_eq "Comparing with: " _ (by decide)]; decide
    · rw [isBlockHeader_append_eq "Comparing with: " _ (by decide)]; decide
  rcases List.mem_cons.mp hu with rfl | hu
  · refine ⟨?_, ?_, ?_⟩
    · rw [isEntryLine_append_eq "\nTotal Holdings: " _ (by decide)]; decide
    · rw [isMoreLine_append_eq "\nTotal Holdings: " _ (by decide)]; decide
    · rw [isBlockHeader_append_eq "\nTotal Holdings: " _ (by decide)]; decide
  rcases List.mem_cons.mp hu with rfl | hu
  · refine ⟨?_, ?_, ?_⟩
    · rw [isEntryLine_append_eq "Total Changes Detected: " _ (by decide)]; decide
    · rw [isMoreLine_append_eq "Total Changes Detected: " _ (by decide)]; decide
    · rw [isBlockHeader_append_eq "Total Changes Detected: " _ (by decide)]; decide
  · exact absurd hu (List.not_mem_nil u)

theorem classifiers_noChangeBlock (sc : ℕ) :
    ∀ u ∈ noChangeBlock sc, isEntryLine u = false ∧ isMoreLine u = false ∧
      isBlockHeader u = false := by
  intro u hu
  rw [noChangeBlock] at hu
  by_cases hsc : sc = 0
  · rw [if_pos hsc] at hu
    rcases List.mem_cons.mp hu with rfl | hu
    · refine ⟨by decide, by decide, by decide⟩
    rcases List.mem_cons.mp hu with rfl | hu
    · refine ⟨by decide, by decide, by decide⟩
    rcases List.mem_cons.mp hu with rfl | hu
    · refine ⟨by decide, by decide, by decide⟩
    · exact absurd hu (List.not_mem_nil u)
  · rw [if_neg hsc] at hu
    exact absurd hu (List.not_mem_nil u)

/-- C9: in every success report, exactly the first `min 10` weight-change
entries are rendered (counted by their unique leading arrow lines); the
`... and N more weight changes` line appears exactly when more than 10
entries exist, with `N = len - 10`; and when `significant_changes = 0`
the report carries the no-changes notice and none of the three block
headers. -/
theorem report_top10_and_no_changes (gen today : String) (cur : List Row)
    (pd : SnapshotData) (d p : String) (tot : ℕ) (nh rh : List (String × String))
    (wc : List WeightChange) (sc : ℕ)
    (h : compare_holdings today cur (some pd) = .success d p tot nh rh wc sc) :
    (report_lines gen (.success d p tot nh rh wc sc)).countP isEntryLine =
      min 10 wc.length ∧
    (report_lines gen (.success d p tot nh rh wc sc)).countP isMoreLine =
      (if 10 < wc.length then 1 else 0) ∧
    (10 < wc.length →
      ("\n  ... and " ++ toString (wc.length - 10) ++ " more weight changes") ∈
        report_lines gen (.success d p tot nh rh wc sc)) ∧
    (sc = 0 →
      "✓ No significant changes detected since last update" ∈
        report_lines gen (.success d p tot nh rh wc sc) ∧
      (report_lines gen (.success d p tot nh rh wc sc)).countP isBlockHeader = 0) := by
  rw [compare_holdings] at h
  cases h
  have hdr := classifiers_headerLines
    (.success today pd.date cur.length (new_holdings_of cur pd.holdings)
      (removed_holdings_of cur pd.holdings) (weight_changes_of cur pd.holdings)
      (significant_changes_of cur pd.holdings))
  have ftr := classifiers_footerLines gen
  have shd := classifiers_successHead pd.date cur.length (significant_changes_of cur pd.holdings)
  have nb := classifiers_newBlock (new_holdings_of cur pd.holdings)
  have rb := classifiers_removedBlock (removed_holdings_of cur pd.holdings)
  obtain ⟨w1, w2, w3⟩ := countP_weightBlock (weight_changes_of cur pd.holdings)
  have ncb := classifiers_noChangeBlock (significant_changes_of cur pd.holdings)
  refine ⟨?_, ?_, ?_, ?_⟩
  · simp only [report_lines, List.countP_append]
    rw [countP_zero_of_false _ _ (fun u hu => (hdr u hu).1),
      countP_zero_of_false _ _ (fun u hu => (shd u hu).1),
      countP_zero_of_false _ _ (fun u hu => (nb u hu).1),
      countP_zero_of_false _ _ (fun u hu => (rb u hu).1),
      countP_zero_of_false _ _ (fun u hu => (ncb u hu).1),
      countP_zero_of_false _ _ (fun u hu => (ftr u hu).1), w1]
    simp
  · simp only [report_lines, List.countP_append]
    rw [countP_zero_of_false _ _ (fun u hu => (hdr u hu).2.1),
      countP_zero_of_false _ _ (fun u hu => (shd u hu).2.1),
      countP_zero_of_false _ _ (fun u hu => (nb u hu).2),
      countP_zero_of_false _ _ (fun u hu => (rb u hu).2),
      countP_zero_of_false _ _ (fun u hu => (ncb u hu).2.1),
      countP_zero_of_false _ _ (fun u hu => (ftr u hu).2.1), w2]
    simp
  · intro hlen
    have hm := w3 hlen
    simp only [report_lines]
    exact List.mem_append.mpr (.inl (List.mem_append.mpr (.inr
      (List.mem_append.mpr (.inl (List.mem_append.mpr (.inr hm)))))))
  · intro hsc
    have hsum := hsc
    rw [significant_changes_of] at hsum
    have h1 : new_tickers cur pd.holdings = [] := List.length_eq_zero.mp (by omega)
    have h2 : removed_tickers cur pd.holdings = [] := List.length_eq_zero.mp (by omega)
    have h3 : weight_changes_raw cur pd.holdings = [] := List.length_eq_zero.mp (by omega)
    have hnh : new_holdings_of cur pd.holdings = [] := by
      rw [new_holdings_of, h1]
      rfl
    have hrh : removed_holdings_of cur pd.holdings = [] := by
      rw [removed_holdings_of, h2]
      rfl
    have hwc : weight_changes_of cur pd.holdings = [] := by
      rw [weight_changes_of, h3]
      simp
    constructor
    · simp only [report_lines]
      have hin : "✓ No significant changes detected since last update" ∈
          noChangeBlock (significant_changes_of cur pd.holdings) := by
        rw [noChangeBlock, if_pos hsc]
        exact List.mem_cons.mpr (.inr (List.mem_cons.mpr (.inl rfl)))
      exact List.mem_append.mpr (.inl (List.mem_append.mpr (.inr
        (List.mem_append.mpr (.inr hin)))))
    · have hnb2 : newBlock (new_holdings_of cur pd.holdings) = [] := by
        rw [hnh]
        rfl
      have hrb2 : removedBlock (removed_holdings_of cur pd.holdings) = [] := by
        rw [hrh]
        rfl
      have hwb2 : weightBlock (weight_changes_of cur pd.holdings) = [] := by
        rw [hwc]
        rfl
      simp only [report_lines, List.countP_append, hnb2, hrb2, hwb2, List.countP_nil]
      rw [countP_zero_of_false _ _ (fun u hu => (hdr u hu).2.2),
        countP_zero_of_false _ _ (fun u hu => (shd u hu).2.2),
        countP_zero_of_false _ _ (fun u hu => (ncb u hu).2.2),
        countP_zero_of_false _ _ (fun u hu => (ftr u hu).2.2)]

/-- Witness for C9 at a concrete comparison (one weight change). -/
theorem report_top10_and_no_changes_witness :
    (report_lines "g" (.success "d" "p" 1
        (new_holdings_of [["A", "a", "2"]] [["A", "a", "1"]])
        (removed_holdings_of [["A", "a", "2"]] [["A", "a", "1"]])
        (weight_changes_of [["A", "a", "2"]] [["A", "a", "1"]])
        (significant_changes_of [["A", "a", "2"]] [["A", "a", "1"]]))).countP isEntryLine =
      min 10 (weight_changes_of [["A", "a", "2"]] [["A", "a", "1"]]).length ∧
    (report_lines "g" (.success "d" "p" 1
        (new_holdings_of [["A", "a", "2"]] [["A", "a", "1"]])
        (removed_holdings_of [["A", "a", "2"]] [["A", "a", "1"]])
        (weight_changes_of [["A", "a", "2"]] [["A", "a", "1"]])
        (significant_changes_of [["A", "a", "2"]] [["A", "a", "1"]]))).countP isMoreLine =
      (if 10 < (weight_changes_of [["A", "a", "2"]] [["A", "a", "1"]]).length
        then 1 else 0) ∧
    (10 < (weight_changes_of [["A", "a", "2"]] [["A", "a", "1"]]).length →
      ("\n  ... and " ++
          toString ((weight_changes_of [["A", "a", "2"]] [["A", "a", "1"]]).length - 10) ++
          " more weight changes") ∈
        report_lines "g" (.success "d" "p" 1
          (new_holdings_of [["A", "a", "2"]] [["A", "a", "1"]])
          (removed_holdings_of [["A", "a", "2"]] [["A", "a", "1"]])
          (weight_changes_of [["A", "a", "2"]] [["A", "a", "1"]])
          (significant_changes_of [["A", "a", "2"]] [["A", "a", "1"]]))) ∧
    (significant_changes_of [["A", "a", "2"]] [["A", "a", "1"]] = 0 →
      "✓ No significant changes detected since last update" ∈
        report_lines "g" (.success "d" "p" 1
          (new_holdings_of [["A", "a", "2"]] [["A", "a", "1"]])
          (removed_holdings_of [["A", "a", "2"]] [["A", "a", "1"]])
          (weight_changes_of [["A", "a", "2"]] [["A", "a", "1"]])
          (significant_changes_of [["A", "a", "2"]] [["A", "a", "1"]])) ∧
      (report_lines "g" (.success "d" "p" 1
          (new_holdings_of [["A", "a", "2"]] [["A", "a", "1"]])
          (removed_holdings_of [["A", "a", "2"]] [["A", "a", "1"]])
          (weight_changes_of [["A", "a", "2"]] [["A", "a", "1"]])
          (significant_changes_of [["A", "a", "2"]] [["A", "a", "1"]]))).countP
        isBlockHeader = 0) :=
  report_top10_and_no_changes "g" "d" [["A", "a", "2"]] ⟨"p", [["A", "a", "1"]]⟩
    "d" "p" 1 (new_holdings_of [["A", "a", "2"]] [["A", "a", "1"]])
    (removed_holdings_of [["A", "a", "2"]] [["A", "a", "1"]])
    (weight_changes_of [["A", "a", "2"]] [["A", "a", "1"]])
    (significant_changes_of [["A", "a", "2"]] [["A", "a", "1"]]) rfl

end ETFMonitor
